import Mathlib

/-!
Verification of the stk GA engine core: the hierarchical `Population`
container (`src/ga/population.py`), the `Crossover` dispatcher
(`src/ga/crossover.py`) and the optimization pipeline
(`src/molecular/optimization/optimization.py`), shallowly embedded in Lean.

Stateful Python code is embedded as explicit state passing; fallible code
returns `Except`.  The `MacroMolecule` and `GATools` classes themselves are
not part of the analysed sources, so the few attributes the core touches are
modelled from the spec where noted.
-/

namespace Stk

/-- Modelled from the spec: the `GATools` configuration bundle
(`ga_tools.py` is not among the analysed sources).  The spec only needs a
distinguished "empty" placeholder value (`GATools.init_empty`) carried by
newly constructed populations, so the bundle is reduced to a marker of
whether any operators were configured. -/
structure GATools where
  configured : Bool
deriving DecidableEq, Repr

/-- `GATools.init_empty()`: the empty placeholder bundle. -/
def GATools.init_empty : GATools := ⟨false⟩

/-- The attributes of `MacroMolecule` that the analysed core reads or
writes: the content fingerprint governing semantic equality, the `name`
attribute used in log messages and persistence, the structure payload
(`mol` / `.mol` file content, abstracted as a counter mutated by
optimization functions), the `optimized` and `failed` flags and the
`fitness` value. -/
structure Molecule where
  fingerprint : Nat
  name : String
  mol_struct : Nat
  optimized : Bool
  failed : Bool
  fitness : Option Int
deriving DecidableEq, Repr

/-- Modelled from the spec: `MacroMolecule.same` — "two Candidates are
semantically equal iff their fingerprints match, regardless of identity"
(the `MacroMolecule` class is not among the analysed sources). -/
def Molecule.same (m other : Molecule) : Bool :=
  m.fingerprint == other.fingerprint

/-- `Population.__init__` / attributes: an ordered list of directly held
members, an ordered list of subpopulations and the `ga_tools` bundle.
`__init__` pre-sets `ga_tools = GATools.init_empty()` and overwrites it if a
`GATools` argument is supplied; `Population.load` can leave `None` there, so
the field is an `Option`. -/
inductive Population : Type where
  | mk (members : List Molecule) (populations : List Population)
       (ga_tools : Option GATools)

/-- The `members` attribute. -/
def Population.members : Population → List Molecule
  | .mk ms _ _ => ms

/-- The `populations` attribute. -/
def Population.populations : Population → List Population
  | .mk _ ps _ => ps

/-- The `ga_tools` attribute. -/
def Population.ga_tools : Population → Option GATools
  | .mk _ _ gt => gt

/-- `Population()` with no molecule or subpopulation arguments: empty
member and subpopulation lists, `ga_tools = GATools.init_empty()`. -/
def Population.empty : Population :=
  .mk [] [] (some GATools.init_empty)

/-- `Population(ga_tools)`: a fresh population carrying the given bundle
(as built at the start of `__sub__` and of `Crossover.__call__`). -/
def Population.empty_with (gt : Option GATools) : Population :=
  .mk [] [] gt

mutual

/-- `Population.all_members`: yield the directly held members, then for
each subpopulation in order, yield from its own `all_members` generator. -/
def Population.all_members : Population → List Molecule
  | .mk ms pops _ => ms ++ all_members_list pops

/-- The `for pop in self.populations: yield from pop.all_members()` part
of `Population.all_members`. -/
def all_members_list : List Population → List Molecule
  | [] => []
  | p :: ps => p.all_members ++ all_members_list ps

end

/-- `Population.__contains__`: `any(item.same(mol) for mol in
self.all_members())`. -/
def Population.contains_mol (p : Population) (item : Molecule) : Bool :=
  p.all_members.any (fun mol => item.same mol)

/-- `Population.__len__`: `len(list(self.all_members()))`. -/
def Population.len (p : Population) : Nat :=
  p.all_members.length

/-- `Population.__getitem__` with an integer key:
`list(self.all_members())[key]` (`none` models the `IndexError`). -/
def Population.getitem (p : Population) (key : Nat) : Option Molecule :=
  p.all_members[key]?

/-- Replace the `members` attribute. -/
def Population.with_members (p : Population) (ms : List Molecule) : Population :=
  .mk ms p.populations p.ga_tools

/-- `Population.add_members` with `duplicates=False`:
`self.members.extend(mol for mol in population if mol not in self)`.
`list.extend` consumes the filtering generator one element at a time, so
each membership test sees the molecules appended earlier in the same call;
the recursion reproduces that. -/
def Population.add_members : Population → List Molecule → Population
  | p, [] => p
  | p, mol :: rest =>
      if p.contains_mol mol then p.add_members rest
      else (p.with_members (p.members ++ [mol])).add_members rest

/-- `Population.__sub__`: `new_pop = Population(self.ga_tools);
new_pop.add_members(mol for mol in self if mol not in other)`.  The
generator filters against the fixed `other` while `add_members` applies its
own deduplication against the growing result. -/
def Population.sub (self other : Population) : Population :=
  (Population.empty_with self.ga_tools).add_members
    (self.all_members.filter (fun mol => !(other.contains_mol mol)))

/-! ### The optimization pipeline (`optimization.py`) -/

/-- An optimization function `func` as the pipeline sees it: Python
mutation-in-place-or-raise becomes `ok` (the updated molecule) or `error`
(the exception message paired with the molecule state the raising call left
behind). -/
def OptFunc : Type := Molecule → Except (String × Molecule) Molecule

/-- The `_OptimizationFunc` decorator object: the wrapped function plus the
object's own attribute dictionary, of which the source writes exactly one
slot, `self.optimized` (absent — i.e. `false` — until the first successful
call writes it). -/
structure OptimizationFunc where
  wrapped : OptFunc
  optimized : Bool

/-- `_OptimizationFunc.__call__`: skip if `macro_mol.optimized`; otherwise
run the wrapped function; on success execute `self.optimized = True` (note:
on the decorator object, not on the molecule) and return the molecule; on
any exception set `macro_mol.optimized = True` and `macro_mol.failed =
True`, record the failure and return the molecule instead of raising. -/
def OptimizationFunc.call (f : OptimizationFunc) (mol : Molecule) :
    OptimizationFunc × Molecule :=
  if mol.optimized then (f, mol)
  else
    match f.wrapped mol with
    | .ok mol2 => ({ f with optimized := true }, mol2)
    | .error (_, raised) => (f, { raised with optimized := true, failed := true })

/-- `_optimize_all`: wrap the chosen function in `_OptimizationFunc` and
`pool.map` it over the population (iteration = `all_members` order).
`pool.map` hands every worker task its own copy of the wrapper and returns
the results in input order regardless of completion order. -/
def optimize_all (func : OptFunc) (population : Population) : List Molecule :=
  population.all_members.map
    (fun mol => ((OptimizationFunc.mk func false).call mol).2)

/-- The generator body of `_optimize_all_serial`: one shared
`_OptimizationFunc` object is applied to each member in turn, threading the
wrapper's own state through the calls. -/
def optimize_serial_go (f : OptimizationFunc) : List Molecule → List Molecule
  | [] => []
  | mol :: rest =>
      let step := f.call mol
      step.2 :: optimize_serial_go step.1 rest

/-- `_optimize_all_serial`: `(p_func(member) for member in population)`
with `p_func = _OptimizationFunc(...)`, fully consumed. -/
def optimize_all_serial (func : OptFunc) (population : Population) :
    List Molecule :=
  optimize_serial_go (OptimizationFunc.mk func false) population.all_members

/-! ### The crossover dispatcher (`crossover.py`) -/

/-- A `FunctionData` object as `Crossover` uses it: the name of the
crossover method to dispatch to (`getattr(self, func_data.name)`); the
bound `params` are folded into the builder's behaviour. -/
structure FunctionData where
  name : String
deriving DecidableEq, Repr

/-- The `Crossover` dispatcher: its `__init__` body is exactly the three
attribute assignments — no validation of `weights` happens there. -/
structure Crossover where
  funcs : List FunctionData
  weights : Option (List Rat)
  num_crossovers : Nat

/-- `Crossover.__init__(funcs, num_crossovers, weights=None)`: store the
three arguments; nothing is checked and nothing can raise. -/
def Crossover.init (funcs : List FunctionData) (num_crossovers : Nat)
    (weights : Option (List Rat)) : Crossover :=
  { funcs := funcs, weights := weights, num_crossovers := num_crossovers }

/-- `np.random.choice(a, p=weights)` as `Crossover.__call__` uses it: when
`p` is given its length must equal `len(a)` and it must sum to 1, otherwise
a `ValueError` is raised; an empty `a` also raises.  Which element the
valid draw returns is random — abstracted here by the oracle index `idx`
(the claims under study do not depend on the distribution). -/
def np_random_choice (idx : Nat) (a : List FunctionData)
    (p : Option (List Rat)) : Except String FunctionData :=
  match p with
  | some w =>
      if w.length ≠ a.length then .error "a and p must have same size"
      else if w.sum ≠ 1 then .error "probabilities do not sum to 1"
      else
        match a with
        | [] => .error "a must be non-empty"
        | f :: fs => .ok ((f :: fs).get ⟨idx % (fs.length + 1), Nat.mod_lt _ (Nat.succ_pos _)⟩)
  | none =>
      match a with
      | [] => .error "a must be non-empty"
      | f :: fs => .ok ((f :: fs).get ⟨idx % (fs.length + 1), Nat.mod_lt _ (Nat.succ_pos _)⟩)

/-- A structure builder as `Crossover.__call__` sees one crossover method:
given the dispatched function's name and the parent tuple, return the
offspring molecules or raise (`error` with the exception message). -/
def Builder : Type := String → List Molecule → Except String (List Molecule)

/-- One record of the `logger.error` call in the `except` branch of
`Crossover.__call__`: the crossover function's name and the parents'
names. -/
structure LogEntry where
  func_name : String
  parent_names : List String
deriving DecidableEq, Repr

/-- One iteration of the `for i, parents in enumerate(parent_pool)` body
after the crossover function has been drawn: the `try` block adds the
offspring to `offspring_pop` (`add_members`, deduplicating); the `except
Exception` branch logs the function name with the parent names and moves
on. -/
def cross_iter (builder : Builder) (fd : FunctionData)
    (parents : List Molecule) (acc : Population × List LogEntry) :
    Population × List LogEntry :=
  match builder fd.name parents with
  | .ok offspring => (acc.1.add_members offspring, acc.2)
  | .error _ => (acc.1, acc.2 ++ [⟨fd.name, parents.map Molecule.name⟩])

/-- The loop of `Crossover.__call__` over the (already truncated) parent
pool.  `np.random.choice` runs before the `try` block, so a `ValueError`
from it propagates out of the call; `i` counts iterations and feeds the
draw oracle `rng`. -/
def cross_loop (builder : Builder) (rng : Nat → Nat) (co : Crossover)
    (i : Nat) (pool : List (List Molecule))
    (acc : Population × List LogEntry) :
    Except String (Population × List LogEntry) :=
  match pool with
  | [] => .ok acc
  | parents :: rest =>
      match np_random_choice (rng i) co.funcs co.weights with
      | .error e => .error e
      | .ok fd =>
          cross_loop builder rng co (i + 1) rest
            (cross_iter builder fd parents acc)

/-- `Crossover.__call__`: build `offspring_pop =
GAPopulation(ga_tools=population.ga_tools)`, truncate the selection stream
with `islice(..., self.num_crossovers)` (the stream itself comes from the
external `Selection` component and is passed in as `parent_pool`), run the
crossover loop, then `offspring_pop -= population` so only offspring novel
with respect to the input population remain.  The selection counter and
its plot are telemetry and do not affect the returned value. -/
def crossover_call (builder : Builder) (rng : Nat → Nat) (co : Crossover)
    (population : Population) (parent_pool : List (List Molecule)) :
    Except String (Population × List LogEntry) :=
  match cross_loop builder rng co 0 (parent_pool.take co.num_crossovers)
      (Population.empty_with population.ga_tools, []) with
  | .error e => .error e
  | .ok (offspring_pop, log) => .ok (offspring_pop.sub population, log)

/-! ### Next-generation selection (`Population.gen_next_gen`) -/

/-- The loop of `Population.gen_next_gen`: for each member yielded by
`self.select('generational')` (the external selection stream, passed in as
a list), `new_gen.add_members([member])` and break as soon as
`len(new_gen) == pop_size`. -/
def gen_next_gen_loop (pop_size : Nat) :
    List Molecule → Population → Population
  | [], new_gen => new_gen
  | mol :: rest, new_gen =>
      let ng := new_gen.add_members [mol]
      if ng.len = pop_size then ng
      else gen_next_gen_loop pop_size rest ng

/-- `Population.gen_next_gen`: `new_gen = Population(self.ga_tools)`, then
the selection loop above.  The selection counter and its `.png` plot are
telemetry and do not affect the returned population. -/
def Population.gen_next_gen (p : Population) (selected : List Molecule)
    (pop_size : Nat) : Population :=
  gen_next_gen_loop pop_size selected (Population.empty_with p.ga_tools)

/-! ### Persistence (`Population.tolist` / `fromlist` / `load`) -/

/-- The flat JSON record a molecule serializes to: all of its attributes,
including the persisted `name` hint. -/
structure MolDict where
  fingerprint : Nat
  name : String
  mol_struct : Nat
  optimized : Bool
  failed : Bool
  fitness : Option Int
deriving DecidableEq, Repr

/-- Modelled from the spec: `Molecule.json` (the `Molecule` class is not
among the analysed sources) — "each Candidate serialized to a flat record
(object) of its attributes". -/
def Molecule.json (m : Molecule) : MolDict :=
  ⟨m.fingerprint, m.name, m.mol_struct, m.optimized, m.failed, m.fitness⟩

/-- Modelled from the spec: `Molecule.fromdict(d, load_names)` (the
`Molecule` class is not among the analysed sources) — rebuild the molecule
from its record; with `load_names=False` the persisted `name` hint is
discarded and identity is re-derived fresh (modelled as the empty name). -/
def Molecule.fromdict (d : MolDict) (load_names : Bool) : Molecule :=
  { fingerprint := d.fingerprint
    name := if load_names then d.name else ""
    mol_struct := d.mol_struct
    optimized := d.optimized
    failed := d.failed
    fitness := d.fitness }

/-- One item of the list representation produced by `Population.tolist`: a
member's JSON record (a leaf) or a subpopulation's nested list (a
branch). -/
inductive PopItem : Type where
  | mdict (d : MolDict)
  | plist (l : List PopItem)

mutual

/-- `Population.tolist`: `[x.json() for x in self.members]` followed by
appending `sp.tolist()` for each subpopulation. -/
def Population.tolist : Population → List PopItem
  | .mk ms pops _ =>
      ms.map (fun m => PopItem.mdict m.json) ++ tolist_sub pops

/-- The `for sp in self.populations: pop.append(sp.tolist())` part of
`Population.tolist`. -/
def tolist_sub : List Population → List PopItem
  | [] => []
  | sp :: rest => PopItem.plist sp.tolist :: tolist_sub rest

end

/-- The loop of `Population.fromlist`: starting from `pop = cls()` (which
carries `GATools.init_empty`), append each `dict` item to `members` via
`Molecule.fromdict(item, load_names)` and each `list` item to
`populations` via a recursive `fromlist`. -/
def fromlist_go : List PopItem → Bool → Population → Population
  | [], _, pop => pop
  | .mdict d :: rest, load_names, pop =>
      fromlist_go rest load_names
        (.mk (pop.members ++ [Molecule.fromdict d load_names])
             pop.populations pop.ga_tools)
  | .plist l :: rest, load_names, pop =>
      fromlist_go rest load_names
        (.mk pop.members
             (pop.populations ++ [fromlist_go l load_names Population.empty])
             pop.ga_tools)

/-- `Population.fromlist(pop_list, load_names)`. -/
def Population.fromlist (pop_list : List PopItem) (load_names : Bool) :
    Population :=
  fromlist_go pop_list load_names Population.empty

/-- `Population.load(path, ga_tools=None, load_names=True)` after the JSON
file has been parsed into `pop_list`: `pop = cls.fromlist(pop_list,
load_names); pop.ga_tools = ga_tools` — the argument is assigned
unconditionally, so the default `None` lands in the attribute. -/
def Population.load (pop_list : List PopItem) (ga_tools : Option GATools)
    (load_names : Bool) : Population :=
  let pop := Population.fromlist pop_list load_names
  .mk pop.members pop.populations ga_tools

/-- The spec's reachability relation, stated as written: "the set of all
Candidates reachable from a node is the union, depth-first, of its own
members and the recursively reachable members of its subpopulations". -/
inductive Reachable (m : Molecule) : Population → Prop where
  | direct (p : Population) : m ∈ p.members → Reachable m p
  | via_sub (p : Population) (sub : Population) :
      sub ∈ p.populations → Reachable m sub → Reachable m p

mutual

/-- An analysis-side structure-preserving member map, used to express the
persistence round trip: apply `f` to every member at every level, with the
`ga_tools` placeholder a fresh `fromlist`-built node carries. -/
def Population.map_members (f : Molecule → Molecule) : Population → Population
  | .mk ms pops _ => .mk (ms.map f) (map_members_list f pops) (some GATools.init_empty)

/-- `Population.map_members` over a list of subpopulations. -/
def map_members_list (f : Molecule → Molecule) : List Population → List Population
  | [] => []
  | sp :: rest => Population.map_members f sp :: map_members_list f rest

end

/-! ### Helper lemmas -/

theorem members_mk (ms : List Molecule) (pops : List Population)
    (gt : Option GATools) : (Population.mk ms pops gt).members = ms := rfl

theorem populations_mk (ms : List Molecule) (pops : List Population)
    (gt : Option GATools) : (Population.mk ms pops gt).populations = pops := rfl

theorem ga_tools_mk (ms : List Molecule) (pops : List Population)
    (gt : Option GATools) : (Population.mk ms pops gt).ga_tools = gt := rfl

theorem all_members_mk (ms : List Molecule) (pops : List Population)
    (gt : Option GATools) :
    (Population.mk ms pops gt).all_members = ms ++ all_members_list pops := by
  rw [Population.all_members]

theorem with_members_mk (ms ms2 : List Molecule) (pops : List Population)
    (gt : Option GATools) :
    (Population.mk ms pops gt).with_members ms2 = .mk ms2 pops gt := rfl

theorem all_members_list_eq_join (ps : List Population) :
    all_members_list ps = (ps.map Population.all_members).flatten := by
  induction ps with
  | nil => rfl
  | cons p ps ih => rw [all_members_list, List.map_cons, List.flatten_cons, ih]

theorem all_members_eq (p : Population) :
    p.all_members = p.members ++ (p.populations.map Population.all_members).flatten := by
  cases p with
  | mk ms pops gt => rw [all_members_mk, all_members_list_eq_join]; rfl

theorem mem_all_members_list (m : Molecule) (ps : List Population) :
    m ∈ all_members_list ps ↔ ∃ sub ∈ ps, m ∈ sub.all_members := by
  induction ps with
  | nil => simp [all_members_list]
  | cons p ps ih => simp [all_members_list, ih]

theorem contains_mol_iff (p : Population) (m : Molecule) :
    p.contains_mol m = true ↔ ∃ x ∈ p.all_members, m.fingerprint = x.fingerprint := by
  simp [Population.contains_mol, List.any_eq_true, Molecule.same]

theorem mem_all_members_of_with_append (p : Population) (mol x : Molecule)
    (hx : x ∈ p.all_members) :
    x ∈ (p.with_members (p.members ++ [mol])).all_members := by
  cases p with
  | mk ms pops gt =>
      rw [all_members_mk] at hx
      rw [Population.members, with_members_mk, all_members_mk]
      rcases List.mem_append.mp hx with h | h
      · exact List.mem_append.mpr (.inl (List.mem_append.mpr (.inl h)))
      · exact List.mem_append.mpr (.inr h)

theorem mol_mem_with_append (p : Population) (mol : Molecule) :
    mol ∈ (p.with_members (p.members ++ [mol])).all_members := by
  cases p with
  | mk ms pops gt =>
      rw [Population.members, with_members_mk, all_members_mk]
      exact List.mem_append.mpr (.inl (List.mem_append.mpr (.inr (List.mem_singleton.mpr rfl))))

theorem contains_mol_mono_with_append (p : Population) (mol m : Molecule)
    (h : p.contains_mol m = true) :
    (p.with_members (p.members ++ [mol])).contains_mol m = true := by
  rw [contains_mol_iff] at h ⊢
  obtain ⟨x, hx, hfp⟩ := h
  exact ⟨x, mem_all_members_of_with_append p mol x hx, hfp⟩

theorem add_members_populations (p : Population) (ms : List Molecule) :
    (p.add_members ms).populations = p.populations := by
  induction ms generalizing p with
  | nil => rfl
  | cons mol rest ih =>
      rw [Population.add_members]
      by_cases h : p.contains_mol mol = true
      · rw [if_pos h, ih]
      · rw [if_neg h, ih]; cases p; rfl

theorem add_members_ga_tools (p : Population) (ms : List Molecule) :
    (p.add_members ms).ga_tools = p.ga_tools := by
  induction ms generalizing p with
  | nil => rfl
  | cons mol rest ih =>
      rw [Population.add_members]
      by_cases h : p.contains_mol mol = true
      · rw [if_pos h, ih]
      · rw [if_neg h, ih]; cases p; rfl

theorem add_members_members_subset (p : Population) (ms : List Molecule)
    (x : Molecule) (hx : x ∈ (p.add_members ms).members) :
    x ∈ p.members ∨ x ∈ ms := by
  induction ms generalizing p with
  | nil => exact .inl hx
  | cons mol rest ih =>
      rw [Population.add_members] at hx
      by_cases h : p.contains_mol mol = true
      · rw [if_pos h] at hx
        rcases ih p hx with h1 | h1
        · exact .inl h1
        · exact .inr (List.mem_cons_of_mem _ h1)
      · rw [if_neg h] at hx
        rcases ih _ hx with h1 | h1
        · cases p with
          | mk pms ppops pgt =>
              simp only [Population.with_members, Population.members,
                         members_mk] at h1
              rcases List.mem_append.mp h1 with h2 | h2
              · exact .inl h2
              · exact .inr (List.mem_cons.mpr (.inl (List.mem_singleton.mp h2)))
        · exact .inr (List.mem_cons_of_mem _ h1)

theorem contains_mol_mono_add (p : Population) (ms : List Molecule)
    (m : Molecule) (h : p.contains_mol m = true) :
    (p.add_members ms).contains_mol m = true := by
  induction ms generalizing p with
  | nil => exact h
  | cons mol rest ih =>
      rw [Population.add_members]
      by_cases hc : p.contains_mol mol = true
      · rw [if_pos hc]; exact ih p h
      · rw [if_neg hc]
        exact ih _ (contains_mol_mono_with_append p mol m h)

theorem contains_mol_add_of_mem (p : Population) (ms : List Molecule)
    (m : Molecule) (hm : m ∈ ms) :
    (p.add_members ms).contains_mol m = true := by
  induction ms generalizing p with
  | nil => cases hm
  | cons mol rest ih =>
      rw [Population.add_members]
      by_cases hc : p.contains_mol mol = true
      · rw [if_pos hc]
        rcases List.mem_cons.mp hm with h | h
        · subst h; exact contains_mol_mono_add p rest m hc
        · exact ih p h
      · rw [if_neg hc]
        rcases List.mem_cons.mp hm with h | h
        · subst h
          refine contains_mol_mono_add _ rest m ?_
          rw [contains_mol_iff]
          exact ⟨m, mol_mem_with_append p m, rfl⟩
        · exact ih _ h

theorem opt_call_of_optimized (f : OptimizationFunc) (mol : Molecule)
    (h : mol.optimized = true) : f.call mol = (f, mol) := by
  simp [OptimizationFunc.call, h]

theorem opt_call_of_ok (f : OptimizationFunc) (mol mol2 : Molecule)
    (h : mol.optimized = false) (hok : f.wrapped mol = .ok mol2) :
    f.call mol = ({ f with optimized := true }, mol2) := by
  simp [OptimizationFunc.call, h, hok]

theorem opt_call_of_error (f : OptimizationFunc) (mol raised : Molecule)
    (e : String) (h : mol.optimized = false)
    (herr : f.wrapped mol = .error (e, raised)) :
    f.call mol = (f, { raised with optimized := true, failed := true }) := by
  simp [OptimizationFunc.call, h, herr]

theorem opt_call_snd_eq (func : OptFunc) (b : Bool) (mol : Molecule) :
    ((OptimizationFunc.mk func b).call mol).2
      = ((OptimizationFunc.mk func false).call mol).2 := by
  by_cases h : mol.optimized = true
  · rw [opt_call_of_optimized _ _ h, opt_call_of_optimized _ _ h]
  · rw [Bool.not_eq_true] at h
    cases hfm : func mol with
    | ok mol2 =>
        rw [opt_call_of_ok ⟨func, b⟩ _ _ h hfm,
            opt_call_of_ok ⟨func, false⟩ _ _ h hfm]
    | error pr =>
        obtain ⟨e, raised⟩ := pr
        rw [opt_call_of_error ⟨func, b⟩ _ _ _ h hfm,
            opt_call_of_error ⟨func, false⟩ _ _ _ h hfm]

theorem serial_go_eq (func : OptFunc) (b : Bool) (ms : List Molecule) :
    optimize_serial_go (OptimizationFunc.mk func b) ms
      = ms.map (fun mol => ((OptimizationFunc.mk func false).call mol).2) := by
  induction ms generalizing b with
  | nil => rfl
  | cons mol rest ih =>
      rw [optimize_serial_go, List.map_cons]
      have hfst : ∃ b2, ((OptimizationFunc.mk func b).call mol).1
          = OptimizationFunc.mk func b2 := by
        by_cases h : mol.optimized = true
        · exact ⟨b, by rw [opt_call_of_optimized _ _ h]⟩
        · rw [Bool.not_eq_true] at h
          cases hfm : func mol with
          | ok mol2 =>
              exact ⟨true, by rw [opt_call_of_ok ⟨func, b⟩ _ _ h hfm]⟩
          | error pr =>
              obtain ⟨e, raised⟩ := pr
              exact ⟨b, by rw [opt_call_of_error ⟨func, b⟩ _ _ _ h hfm]⟩
      obtain ⟨b2, hb2⟩ := hfst
      rw [hb2, ih b2, opt_call_snd_eq func b mol]

theorem serial_eq_parallel (func : OptFunc) (population : Population) :
    optimize_all_serial func population = optimize_all func population := by
  rw [optimize_all_serial, optimize_all, serial_go_eq]

/-! ### Claim theorems -/

/-- C1: for every population tree and optimization operator, the pipeline
(`_optimize_all`, and `_optimize_all_serial` which agrees with it) returns
exactly one output molecule per input member, in the input's depth-first
order, and never raises: position `i` of the output is determined by
member `i` alone — a member the operator raises on comes back with
`failed = True` and `optimized = True`, a member the operator succeeds on
comes back as the operator's result unaffected by other members' failures,
and an already-optimized member passes through unchanged. -/
theorem optimize_all_failure_isolation (func : OptFunc)
    (population : Population) :
    (optimize_all func population).length = population.len ∧
    optimize_all_serial func population = optimize_all func population ∧
    ∀ (i : Nat) (mol : Molecule), population.all_members[i]? = some mol →
      ∃ outp, (optimize_all func population)[i]? = some outp ∧
        (mol.optimized = true → outp = mol) ∧
        (mol.optimized = false → ∀ e raised, func mol = .error (e, raised) →
          outp = { raised with optimized := true, failed := true }) ∧
        (mol.optimized = false → ∀ mol2, func mol = .ok mol2 → outp = mol2) := by
  refine ⟨by rw [optimize_all, List.length_map]; rfl,
          serial_eq_parallel func population, ?_⟩
  intro i mol hmol
  refine ⟨((OptimizationFunc.mk func false).call mol).2, ?_, ?_, ?_, ?_⟩
  · rw [optimize_all, List.getElem?_map, hmol]; rfl
  · intro h; rw [opt_call_of_optimized _ _ h]
  · intro h e raised herr
    rw [opt_call_of_error ⟨func, false⟩ _ _ _ h herr]
  · intro h mol2 hok; rw [opt_call_of_ok ⟨func, false⟩ _ _ h hok]

/-- Concrete molecules and operators used to instantiate the claim
theorems. -/
def mol_x : Molecule :=
  { fingerprint := 0, name := "x", mol_struct := 0, optimized := false,
    failed := false, fitness := none }

def mol_y : Molecule :=
  { fingerprint := 1, name := "y", mol_struct := 0, optimized := false,
    failed := false, fitness := none }

/-- An operator that raises on fingerprint 0 and otherwise bumps the
structure payload. -/
def part_fail_func : OptFunc := fun m =>
  if m.fingerprint == 0 then .error ("opt failed", m)
  else .ok { m with mol_struct := m.mol_struct + 1 }

/-- Witness for C1 at a concrete two-member population: the operator
raises on the first member and succeeds on the second; both hypotheses of
the theorem are discharged at that input. -/
theorem optimize_all_failure_isolation_witness :
    ∃ outx, (optimize_all part_fail_func
        (Population.mk [mol_x, mol_y] [] (some GATools.init_empty)))[0]? = some outx ∧
      outx = { mol_x with optimized := true, failed := true } ∧
      ∃ outy, (optimize_all part_fail_func
          (Population.mk [mol_x, mol_y] [] (some GATools.init_empty)))[1]? = some outy ∧
        outy = { mol_y with mol_struct := 1 } := by
  obtain ⟨-, -, hidx⟩ := optimize_all_failure_isolation part_fail_func
    (Population.mk [mol_x, mol_y] [] (some GATools.init_empty))
  obtain ⟨outx, houtx, -, herr, -⟩ := hidx 0 mol_x
    (by simp [all_members_mk, all_members_list])
  obtain ⟨outy, houty, -, -, hok⟩ := hidx 1 mol_y
    (by simp [all_members_mk, all_members_list])
  exact ⟨outx, houtx, herr rfl "opt failed" mol_x rfl,
         outy, houty, hok rfl { mol_y with mol_struct := 1 } rfl⟩

/-- An operator that always succeeds, bumping the structure payload (the
shape of a real optimization function: it changes the structure and does
not touch the flags). -/
def bump_func : OptFunc := fun m => .ok { m with mol_struct := m.mol_struct + 1 }

/-- C2 (code bug): after the operator succeeds on a molecule the success
branch of `_OptimizationFunc.__call__` executes `self.optimized = True`,
setting the flag on the decorator object instead of on `macro_mol`, so the
returned molecule still has `optimized = False` and a second pipeline run
over it re-invokes the operator (the structure payload is bumped twice)
instead of skipping — contradicting the decorator's stated purpose of
preventing functions "from being run twice on the same molecule". -/
theorem optimize_success_flag_lost :
    optimize_all bump_func (Population.mk [mol_y] [] (some GATools.init_empty))
        = [{ mol_y with mol_struct := 1 }] ∧
    ({ mol_y with mol_struct := 1 } : Molecule).optimized = false ∧
    ((OptimizationFunc.mk bump_func false).call mol_y).1.optimized = true ∧
    optimize_all bump_func
        (Population.mk [{ mol_y with mol_struct := 1 }] [] (some GATools.init_empty))
        = [{ mol_y with mol_struct := 2 }] := by
  refine ⟨?_, rfl, ?_, ?_⟩ <;>
    simp [optimize_all, all_members_mk, all_members_list,
          OptimizationFunc.call, bump_func, mol_y]

/-- C3: a molecule whose `optimized` flag is already `True` before the run
is passed through both pipeline variants entirely unchanged — the
operator is skipped, so the output at its position does not depend on the
operator at all. -/
theorem optimize_skips_already_optimized (func : OptFunc)
    (population : Population) :
    ∀ (i : Nat) (mol : Molecule), population.all_members[i]? = some mol →
      mol.optimized = true →
      (optimize_all func population)[i]? = some mol ∧
      (optimize_all_serial func population)[i]? = some mol := by
  intro i mol hmol hopt
  have h1 : (optimize_all func population)[i]? = some mol := by
    rw [optimize_all, List.getElem?_map, hmol, Option.map_some',
        opt_call_of_optimized _ _ hopt]
  exact ⟨h1, by rw [serial_eq_parallel]; exact h1⟩

/-- Witness for C3: a concrete already-optimized molecule on which the
operator would raise is returned unchanged by both pipeline variants. -/
theorem optimize_skips_already_optimized_witness :
    (optimize_all part_fail_func
        (Population.mk [{ mol_x with optimized := true }] []
          (some GATools.init_empty)))[0]?
      = some { mol_x with optimized := true } ∧
    (optimize_all_serial part_fail_func
        (Population.mk [{ mol_x with optimized := true }] []
          (some GATools.init_empty)))[0]?
      = some { mol_x with optimized := true } := by
  exact optimize_skips_already_optimized part_fail_func _ 0 _
    (by simp [all_members_mk, all_members_list]) rfl

theorem all_members_of_nil_populations (p : Population)
    (h : p.populations = []) : p.all_members = p.members := by
  cases p with
  | mk ms pops gt =>
      rw [populations_mk] at h
      subst h
      rw [all_members_mk, all_members_list, List.append_nil]; rfl

/-- C4: `O - T` (the dedup step of `Crossover.__call__`) is a flat
population (no subpopulations) none of whose members is semantically equal
to any member of `T`, and which semantically contains every member of `O`
that matches no member of `T`. -/
theorem population_sub_novelty (O T : Population) :
    (O.sub T).populations = [] ∧
    (∀ m ∈ (O.sub T).all_members, T.contains_mol m = false) ∧
    (∀ m ∈ O.all_members, T.contains_mol m = false →
      (O.sub T).contains_mol m = true) := by
  have hpops : (O.sub T).populations = [] := by
    rw [Population.sub, add_members_populations]; rfl
  refine ⟨hpops, ?_, ?_⟩
  · intro m hm
    rw [all_members_of_nil_populations _ hpops] at hm
    rcases add_members_members_subset _ _ _ hm with h | h
    · cases h
    · have := (List.mem_filter.mp h).2
      simpa using this
  · intro m hm hc
    refine contains_mol_add_of_mem _ _ _ ?_
    exact List.mem_filter.mpr ⟨hm, by simpa using hc⟩

/-- Concrete populations for the C4 witness: `pop_O` holds `mol_x`
directly and `mol_y` inside a subpopulation; `pop_T` holds a molecule with
`mol_x`'s fingerprint but a different name. -/
def pop_O : Population :=
  .mk [mol_x] [.mk [mol_y] [] none] (some GATools.init_empty)

def pop_T : Population :=
  .mk [{ mol_x with name := "x2" }] [] (some GATools.init_empty)

/-- Witness for C4: in `pop_O - pop_T` the fingerprint-matched `mol_x` is
gone and the novel `mol_y` (reached through a subpopulation) is present. -/
theorem population_sub_novelty_witness :
    (pop_O.sub pop_T).populations = [] ∧
    mol_y ∈ (pop_O.sub pop_T).all_members ∧
    pop_T.contains_mol mol_y = false ∧
    (pop_O.sub pop_T).contains_mol mol_y = true := by
  have hmem : mol_y ∈ (pop_O.sub pop_T).all_members := by
    simp [pop_O, pop_T, Population.sub, Population.add_members,
          Population.contains_mol, Population.empty_with,
          Population.with_members, all_members_mk, all_members_list,
          Molecule.same, mol_x, mol_y]
  have hO : mol_y ∈ pop_O.all_members := by
    simp [pop_O, all_members_mk, all_members_list]
  have h2 := (population_sub_novelty pop_O pop_T).2.1 mol_y hmem
  exact ⟨(population_sub_novelty pop_O pop_T).1, hmem, h2,
         (population_sub_novelty pop_O pop_T).2.2 mol_y hO h2⟩

/-- Concrete function data for the crossover claims. -/
def fd_one : FunctionData := ⟨"bb_lk_exchange"⟩

def fd_two : FunctionData := ⟨"other_exchange"⟩

/-- A builder that always succeeds with no offspring. -/
def ok_builder : Builder := fun _ _ => .ok []

/-- C5 counterexample: configuring `Crossover` with a weight list of the
wrong length (1 weight for 2 functions) raises nothing — `__init__` just
stores the three attributes — and the mismatch instead surfaces as the
`ValueError` of `np.random.choice` when `__call__` processes its first
parent tuple.  This refutes the claim that weights are validated at
configuration time and never first surface during a cross. -/
theorem crossover_init_no_validation_cex :
    Crossover.init [fd_one, fd_two] 1 (some [3/10])
      = { funcs := [fd_one, fd_two], weights := some [3/10],
          num_crossovers := 1 } ∧
    crossover_call ok_builder (fun _ => 0)
        (Crossover.init [fd_one, fd_two] 1 (some [3/10]))
        Population.empty [[mol_x, mol_y]]
      = .error "a and p must have same size" := by
  constructor
  · rfl
  · rfl

/-- C5 (amended): `Crossover.__init__` performs no validation and cannot
raise — it stores `funcs`, `weights` and `num_crossovers` exactly as
given; mismatched or non-normalized weights first surface as an error
raised from `np.random.choice` inside `__call__`, on the first parent
tuple processed (so only if at least one tuple is selected). -/
theorem crossover_weights_deferred_validation (funcs : List FunctionData)
    (n : Nat) (w : Option (List Rat)) :
    Crossover.init funcs n w
      = { funcs := funcs, weights := w, num_crossovers := n } ∧
    ∀ (wl : List Rat), w = some wl →
      (wl.length ≠ funcs.length ∨ wl.sum ≠ 1) →
      ∀ (builder : Builder) (rng : Nat → Nat) (population : Population)
        (pool : List (List Molecule)),
        pool.take n ≠ [] →
        ∃ e, crossover_call builder rng (Crossover.init funcs n w)
            population pool = .error e := by
  refine ⟨rfl, ?_⟩
  intro wl hw hbad builder rng population pool hpool
  subst hw
  obtain ⟨parents, rest, hcons⟩ := List.exists_cons_of_ne_nil hpool
  have hnp : ∃ e, np_random_choice (rng 0) funcs (some wl) = .error e := by
    rcases hbad with h | h
    · refine ⟨"a and p must have same size", ?_⟩
      simp only [np_random_choice]
      rw [if_pos h]
    · by_cases hlen : wl.length = funcs.length
      · refine ⟨"probabilities do not sum to 1", ?_⟩
        simp only [np_random_choice]
        rw [if_neg (by simpa using hlen), if_pos h]
      · refine ⟨"a and p must have same size", ?_⟩
        simp only [np_random_choice]
        rw [if_pos hlen]
  obtain ⟨e, he⟩ := hnp
  refine ⟨e, ?_⟩
  unfold crossover_call
  simp only [Crossover.init] at hcons ⊢
  rw [hcons]
  simp only [cross_loop, he]

/-- Witness for the amended C5 at the concrete mismatched configuration. -/
theorem crossover_weights_deferred_validation_witness :
    Crossover.init [fd_one, fd_two] 1 (some [3/10])
      = { funcs := [fd_one, fd_two], weights := some [3/10],
          num_crossovers := 1 } ∧
    ∃ e, crossover_call ok_builder (fun _ => 0)
        (Crossover.init [fd_one, fd_two] 1 (some [3/10]))
        Population.empty [[mol_x, mol_y]] = .error e := by
  obtain ⟨h1, h2⟩ :=
    crossover_weights_deferred_validation [fd_one, fd_two] 1 (some [3/10])
  exact ⟨h1, h2 [3/10] rfl (.inl (by decide)) ok_builder (fun _ => 0)
    Population.empty [[mol_x, mol_y]] (by simp)⟩

/-- A correctly configured weight list: one entry per function, summing to
1 (or no weight list at all), with a non-empty function list. -/
def weights_ok (funcs : List FunctionData) (w : Option (List Rat)) : Prop :=
  funcs ≠ [] ∧ ∀ wl, w = some wl → wl.length = funcs.length ∧ wl.sum = 1

theorem np_random_choice_ok_of_weights_ok (idx : Nat)
    (funcs : List FunctionData) (w : Option (List Rat))
    (h : weights_ok funcs w) :
    ∃ fd, np_random_choice idx funcs w = .ok fd := by
  obtain ⟨hne, hw⟩ := h
  obtain ⟨f, fs, rfl⟩ := List.exists_cons_of_ne_nil hne
  cases w with
  | none => exact ⟨_, rfl⟩
  | some wl =>
      obtain ⟨hlen, hsum⟩ := hw wl rfl
      refine ⟨(f :: fs).get ⟨idx % (fs.length + 1),
        Nat.mod_lt _ (Nat.succ_pos _)⟩, ?_⟩
      simp only [np_random_choice]
      rw [if_neg (not_not_intro hlen), if_neg (not_not_intro hsum)]

theorem contains_sub_of (O T : Population) (m : Molecule)
    (hO : O.contains_mol m = true) (hT : T.contains_mol m = false) :
    (O.sub T).contains_mol m = true := by
  rw [contains_mol_iff] at hO
  obtain ⟨x, hx, hfp⟩ := hO
  have hTx : T.contains_mol x = false := by
    by_contra hc
    rw [Bool.not_eq_false, contains_mol_iff] at hc
    obtain ⟨y, hy, hfp2⟩ := hc
    have hTm : T.contains_mol m = true :=
      (contains_mol_iff T m).mpr ⟨y, hy, by rw [hfp, hfp2]⟩
    rw [hTm] at hT
    cases hT
  have hxmem : x ∈ O.all_members.filter (fun mol => !(T.contains_mol mol)) :=
    List.mem_filter.mpr ⟨hx, by rw [hTx]; rfl⟩
  have hadd := contains_mol_add_of_mem (Population.empty_with O.ga_tools) _ x hxmem
  rw [contains_mol_iff] at hadd ⊢
  obtain ⟨z, hz, hfp3⟩ := hadd
  refine ⟨z, ?_, by rw [hfp, hfp3]⟩
  rw [Population.sub]
  exact hz

/-- Invariant of the `Crossover.__call__` loop under a valid
configuration: the loop never raises, previously collected offspring and
log lines persist, every failing tuple produces its log line, and every
successful tuple's offspring end up (semantically) in the collected
population. -/
theorem cross_loop_spec (builder : Builder) (rng : Nat → Nat)
    (co : Crossover) (hok : weights_ok co.funcs co.weights) :
    ∀ (L : List (List Molecule)) (i0 : Nat)
      (acc : Population × List LogEntry),
    ∃ res : Population × List LogEntry,
      cross_loop builder rng co i0 L acc = .ok res ∧
      (∀ m, acc.1.contains_mol m = true → res.1.contains_mol m = true) ∧
      (∀ entry, entry ∈ acc.2 → entry ∈ res.2) ∧
      (∀ (j : Nat) (parents : List Molecule) (fd : FunctionData),
        L[j]? = some parents →
        np_random_choice (rng (i0 + j)) co.funcs co.weights = .ok fd →
        (∀ e, builder fd.name parents = .error e →
          (⟨fd.name, parents.map Molecule.name⟩ : LogEntry) ∈ res.2) ∧
        (∀ offspring, builder fd.name parents = .ok offspring →
          ∀ m ∈ offspring, res.1.contains_mol m = true)) := by
  intro L
  induction L with
  | nil =>
      intro i0 acc
      refine ⟨acc, by rw [cross_loop], fun m h => h, fun en h => h, ?_⟩
      intro j parents fd hj
      simp at hj
  | cons parents0 rest ih =>
      intro i0 acc
      obtain ⟨fd0, hfd0⟩ :=
        np_random_choice_ok_of_weights_ok (rng i0) _ _ hok
      obtain ⟨res, hres, hmono, hlog, hj⟩ :=
        ih (i0 + 1) (cross_iter builder fd0 parents0 acc)
      refine ⟨res, ?_, ?_, ?_, ?_⟩
      · simp only [cross_loop, hfd0]
        exact hres
      · intro m hm
        refine hmono m ?_
        unfold cross_iter
        cases hb : builder fd0.name parents0 with
        | ok offspring => exact contains_mol_mono_add _ _ _ hm
        | error e => exact hm
      · intro en hen
        refine hlog en ?_
        unfold cross_iter
        cases hb : builder fd0.name parents0 with
        | ok offspring => exact hen
        | error e => exact List.mem_append.mpr (.inl hen)
      · intro j parents fd hjp hnp
        cases j with
        | zero =>
            have hp : parents0 = parents := by simpa using hjp
            subst hp
            rw [Nat.add_zero] at hnp
            have hfd : fd = fd0 := by
              rw [hnp] at hfd0
              exact Except.ok.inj hfd0
            subst hfd
            constructor
            · intro e hb
              refine hlog _ ?_
              unfold cross_iter
              rw [hb]
              exact List.mem_append.mpr (.inr (by simp))
            · intro offspring hb m hm
              refine hmono m ?_
              unfold cross_iter
              rw [hb]
              exact contains_mol_add_of_mem _ _ _ hm
        | succ j =>
            have hjp2 : rest[j]? = some parents := by simpa using hjp
            have hsh : i0 + (j + 1) = (i0 + 1) + j := by omega
            rw [hsh] at hnp
            exact hj j parents fd hjp2 hnp

/-- C6: under a valid configuration, `Crossover.__call__` never propagates
a builder exception — it always returns the offspring population — and
for every parent tuple on which the drawn crossover function raises, a log
line with that function's name and the parents' names is emitted, while
every other tuple is still processed: each successful tuple's novel
offspring appear in the returned population regardless of the failures. -/
theorem crossover_failure_isolation (builder : Builder) (rng : Nat → Nat)
    (co : Crossover) (population : Population)
    (pool : List (List Molecule))
    (hok : weights_ok co.funcs co.weights) :
    ∃ offspring_pop log,
      crossover_call builder rng co population pool
        = .ok (offspring_pop, log) ∧
      ∀ (i : Nat) (parents : List Molecule) (fd : FunctionData),
        (pool.take co.num_crossovers)[i]? = some parents →
        np_random_choice (rng i) co.funcs co.weights = .ok fd →
        (∀ e, builder fd.name parents = .error e →
          (⟨fd.name, parents.map Molecule.name⟩ : LogEntry) ∈ log) ∧
        (∀ offspring, builder fd.name parents = .ok offspring →
          ∀ m ∈ offspring, population.contains_mol m = false →
            offspring_pop.contains_mol m = true) := by
  obtain ⟨res, hres, -, -, hj⟩ :=
    cross_loop_spec builder rng co hok (pool.take co.num_crossovers) 0
      (Population.empty_with population.ga_tools, [])
  refine ⟨res.1.sub population, res.2, ?_, ?_⟩
  · unfold crossover_call
    rw [hres]
  · intro i parents fd hip hnp
    have hnp0 : np_random_choice (rng (0 + i)) co.funcs co.weights
        = .ok fd := by
      rw [Nat.zero_add]
      exact hnp
    obtain ⟨herr, hsucc⟩ := hj i parents fd hip hnp0
    refine ⟨herr, ?_⟩
    intro offspring hb m hm hnovel
    exact contains_sub_of _ _ _ (hsucc offspring hb m hm) hnovel

/-- A builder that always raises. -/
def fail_builder : Builder := fun _ _ => .error "build failed"

/-- A valid one-function configuration with no weight list. -/
def co_simple : Crossover := Crossover.init [fd_one] 1 none

/-- Witness for C6: with a builder that raises on the (only) parent tuple,
the call still returns a population and the log carries the function name
with the parents' names. -/
theorem crossover_failure_isolation_witness :
    ∃ offspring_pop log,
      crossover_call fail_builder (fun _ => 0) co_simple Population.empty
          [[mol_x, mol_y]] = .ok (offspring_pop, log) ∧
      (⟨"bb_lk_exchange", ["x", "y"]⟩ : LogEntry) ∈ log := by
  obtain ⟨op, log, hcall, hprops⟩ :=
    crossover_failure_isolation fail_builder (fun _ => 0) co_simple
      Population.empty [[mol_x, mol_y]]
      ⟨by simp [co_simple, Crossover.init], by intro wl h; cases h⟩
  obtain ⟨herr, -⟩ := hprops 0 [mol_x, mol_y] fd_one rfl rfl
  refine ⟨op, log, hcall, ?_⟩
  have hmem := herr "build failed" rfl
  simpa [fd_one, mol_x, mol_y] using hmem

theorem len_eq (p : Population) :
    p.len = p.members.length + (p.populations.map Population.len).sum := by
  rw [Population.len, all_members_eq, List.length_append]
  congr 1
  rw [List.length_flatten, List.map_map]
  rfl

theorem mem_all_members_iff_reachable :
    ∀ (p : Population) (m : Molecule), m ∈ p.all_members ↔ Reachable m p
  | .mk ms pops gt, m => by
      rw [all_members_mk, List.mem_append, mem_all_members_list]
      constructor
      · rintro (h | ⟨sub, hsub, hm⟩)
        · exact .direct _ h
        · exact .via_sub _ sub hsub
            ((mem_all_members_iff_reachable sub m).mp hm)
      · rintro (⟨_, h⟩ | ⟨_, sub, hsub, hr⟩)
        · exact .inl h
        · exact .inr ⟨sub, hsub,
            (mem_all_members_iff_reachable sub m).mpr hr⟩
  termination_by p => sizeOf p
  decreasing_by
    all_goals
      subst_vars
      first
        | rw [populations_mk] at hsub
        | skip
      have hlt := List.sizeOf_lt_of_mem hsub
      simp only [Population.mk.sizeOf_spec] at *
      omega

/-- C7: iterating a population yields its directly held members first and
then, subpopulation by subpopulation in order, the recursively reachable
members (depth-first); an integer index returns the element of exactly
this order, the length counts every candidate reachable this way
(members plus recursive subpopulation totals), and the listed candidates
are exactly the spec's reachable ones. -/
theorem population_traversal_order (p : Population) :
    p.all_members
      = p.members ++ (p.populations.map Population.all_members).flatten ∧
    p.len = p.members.length + (p.populations.map Population.len).sum ∧
    (∀ i : Nat, p.getitem i
        = (p.members ++ (p.populations.map Population.all_members).flatten)[i]?) ∧
    (∀ m : Molecule, m ∈ p.all_members ↔ Reachable m p) :=
  ⟨all_members_eq p, len_eq p,
   fun i => by rw [Population.getitem, all_members_eq],
   fun m => mem_all_members_iff_reachable p m⟩

theorem with_members_populations (q : Population) (ms : List Molecule) :
    (q.with_members ms).populations = q.populations := by
  cases q
  rfl

theorem add_members_single_cases (q : Population) (m : Molecule) :
    q.add_members [m] = q ∨
    q.add_members [m] = q.with_members (q.members ++ [m]) := by
  rw [Population.add_members]
  by_cases h : q.contains_mol m = true
  · rw [if_pos h]; exact .inl rfl
  · rw [if_neg h]; exact .inr rfl

theorem len_with_append (q : Population) (m : Molecule) :
    (q.with_members (q.members ++ [m])).len = q.len + 1 := by
  cases q with
  | mk ms pops gt =>
      rw [Population.members, with_members_mk, len_eq, len_eq,
          members_mk, populations_mk, members_mk, populations_mk,
          List.length_append, List.length_singleton]
      omega

theorem len_add_single_le (q : Population) (m : Molecule) :
    (q.add_members [m]).len ≤ q.len + 1 := by
  rcases add_members_single_cases q m with h | h
  · rw [h]; omega
  · rw [h, len_with_append]

theorem add_members_cons (q : Population) (m : Molecule)
    (rest : List Molecule) :
    q.add_members (m :: rest) = (q.add_members [m]).add_members rest := by
  rw [Population.add_members, Population.add_members]
  by_cases h : q.contains_mol m = true
  · rw [if_pos h, if_pos h]
    rfl
  · rw [if_neg h, if_neg h]
    rfl

theorem gen_loop_len_le (pop_size : Nat) (stream : List Molecule) :
    ∀ (acc : Population), acc.len < pop_size →
      (gen_next_gen_loop pop_size stream acc).len ≤ pop_size := by
  induction stream with
  | nil =>
      intro acc h
      rw [gen_next_gen_loop]
      omega
  | cons m rest ih =>
      intro acc h
      rw [gen_next_gen_loop]
      by_cases hlen : (acc.add_members [m]).len = pop_size
      · simp only [hlen, if_true]
        omega
      · simp only [hlen, if_false]
        refine ih _ ?_
        have hle := len_add_single_le acc m
        omega

theorem gen_loop_underfill (pop_size : Nat) (stream : List Molecule) :
    ∀ (acc : Population), acc.len < pop_size →
      (gen_next_gen_loop pop_size stream acc).len < pop_size →
      gen_next_gen_loop pop_size stream acc = acc.add_members stream := by
  induction stream with
  | nil =>
      intro acc h hlt
      rw [gen_next_gen_loop, Population.add_members]
  | cons m rest ih =>
      intro acc h hlt
      rw [gen_next_gen_loop] at hlt ⊢
      by_cases hlen : (acc.add_members [m]).len = pop_size
      · simp only [hlen, if_true] at hlt
        omega
      · simp only [hlen, if_false] at hlt ⊢
        have hle := len_add_single_le acc m
        rw [ih _ (by omega) hlt]
        conv_rhs => rw [add_members_cons]

theorem len_empty_with (gt : Option GATools) :
    (Population.empty_with gt).len = 0 := by
  rw [Population.empty_with, Population.len, all_members_mk,
      all_members_list]
  rfl

/-- C8 counterexample: with target size 0 the loop's `len(new_gen) ==
pop_size` break check runs only after a member has been added, so it never
fires: `gen_next_gen(0)` over a one-member selection stream returns a
population of 1 member — more than `pop_size`. -/
theorem gen_next_gen_zero_size_cex :
    (Population.empty.gen_next_gen [mol_x] 0).len = 1 ∧
    ¬ (Population.empty.gen_next_gen [mol_x] 0).len ≤ 0 := by
  have h : (Population.empty.gen_next_gen [mol_x] 0).len = 1 := by
    rw [Population.gen_next_gen, gen_next_gen_loop]
    have hadd : (Population.empty_with Population.empty.ga_tools).add_members
        [mol_x] = Population.mk [mol_x] [] (some GATools.init_empty) := by
      rw [Population.add_members]
      rw [if_neg (by simp [Population.empty_with, Population.empty,
        Population.contains_mol, all_members_mk, all_members_list])]
      rfl
    rw [hadd]
    have hlen : (Population.mk [mol_x] [] (some GATools.init_empty)).len = 1 := by
      rw [Population.len, all_members_mk, all_members_list]
      rfl
    rw [if_neg (by rw [hlen]; omega), gen_next_gen_loop, hlen]
  exact ⟨h, by omega⟩

/-- C8 (amended): for every population, selection stream and *positive*
target size `pop_size`, `gen_next_gen` returns at most `pop_size` members,
and when it returns fewer the whole selection stream was consumed (the
pool was exhausted) — the under-filled population is returned, no error is
possible.  (With `pop_size = 0` the break check never fires and the result
can exceed the target; see the counterexample.) -/
theorem gen_next_gen_budget (p : Population) (selected : List Molecule)
    (pop_size : Nat) (hpos : 1 ≤ pop_size) :
    (p.gen_next_gen selected pop_size).len ≤ pop_size ∧
    ((p.gen_next_gen selected pop_size).len < pop_size →
      p.gen_next_gen selected pop_size
        = (Population.empty_with p.ga_tools).add_members selected) := by
  have hstart : (Population.empty_with p.ga_tools).len < pop_size := by
    rw [len_empty_with]
    omega
  constructor
  · rw [Population.gen_next_gen]
    exact gen_loop_len_le pop_size selected _ hstart
  · intro hlt
    rw [Population.gen_next_gen] at hlt ⊢
    exact gen_loop_underfill pop_size selected _ hstart hlt

/-- Witness for the amended C8: a stream of two molecules truncated to a
target of 1, and an exhausted one-molecule stream with a target of 5
returned under-filled as the plain `add_members` of the whole stream. -/
theorem gen_next_gen_budget_witness :
    (Population.empty.gen_next_gen [mol_x, mol_y] 1).len ≤ 1 ∧
    Population.empty.gen_next_gen [mol_x] 5
      = (Population.empty_with Population.empty.ga_tools).add_members
          [mol_x] := by
  refine ⟨(gen_next_gen_budget Population.empty [mol_x, mol_y] 1
    (by omega)).1, ?_⟩
  refine (gen_next_gen_budget Population.empty [mol_x] 5 (by omega)).2 ?_
  simp [Population.gen_next_gen, gen_next_gen_loop, Population.add_members,
        Population.contains_mol, all_members_mk, all_members_list,
        Population.empty_with, Population.empty, Population.with_members,
        Population.len, Population.members, Population.populations]

theorem fromdict_json_true (m : Molecule) :
    Molecule.fromdict m.json true = m := by
  cases m
  rfl

theorem fromdict_json_false (m : Molecule) :
    Molecule.fromdict m.json false = { m with name := "" } := by
  cases m
  rfl

theorem fromlist_go_append (ln : Bool) (xs ys : List PopItem) :
    ∀ (pop : Population),
      fromlist_go (xs ++ ys) ln pop = fromlist_go ys ln (fromlist_go xs ln pop) := by
  induction xs with
  | nil =>
      intro pop
      rw [List.nil_append]
      simp only [fromlist_go]
  | cons x rest ih =>
      intro pop
      cases x with
      | mdict d =>
          rw [List.cons_append]
          simp only [fromlist_go]
          exact ih _
      | plist l =>
          rw [List.cons_append]
          simp only [fromlist_go]
          exact ih _

theorem fromlist_go_mdicts (ln : Bool) (ds : List MolDict) :
    ∀ (pop : Population),
      fromlist_go (ds.map PopItem.mdict) ln pop
        = .mk (pop.members ++ ds.map (fun d => Molecule.fromdict d ln))
              pop.populations pop.ga_tools := by
  induction ds with
  | nil =>
      intro pop
      simp only [List.map_nil, fromlist_go, List.append_nil]
      cases pop
      rfl
  | cons d rest ih =>
      intro pop
      simp only [List.map_cons, fromlist_go]
      rw [ih]
      simp [members_mk, populations_mk, ga_tools_mk, List.append_assoc]

theorem fromlist_go_tolist_sub (ln : Bool) (pops : List Population) :
    ∀ (pop : Population),
      fromlist_go (tolist_sub pops) ln pop
        = .mk pop.members
              (pop.populations
                ++ pops.map (fun sp => Population.fromlist sp.tolist ln))
              pop.ga_tools := by
  induction pops with
  | nil =>
      intro pop
      rw [tolist_sub]
      simp only [fromlist_go, List.map_nil, List.append_nil]
      cases pop
      rfl
  | cons sp rest ih =>
      intro pop
      rw [tolist_sub]
      simp only [fromlist_go]
      rw [ih]
      simp only [members_mk, populations_mk, ga_tools_mk, List.map_cons,
                 List.append_assoc, List.singleton_append]
      rfl

mutual

theorem fromlist_tolist_eq : ∀ (p : Population) (ln : Bool),
    Population.fromlist p.tolist ln
      = Population.map_members (fun m => Molecule.fromdict m.json ln) p
  | .mk ms pops gt, ln => by
      rw [Population.fromlist, Population.tolist, fromlist_go_append]
      rw [show ms.map (fun m => PopItem.mdict m.json)
            = (ms.map Molecule.json).map PopItem.mdict from by
          rw [List.map_map]; rfl]
      rw [fromlist_go_mdicts, fromlist_go_tolist_sub, Population.map_members]
      congr 1
      · simp only [Population.empty, members_mk, List.nil_append,
                   List.map_map]
        rfl
      · simp only [Population.empty, populations_mk, List.nil_append]
        exact fromlist_tolist_list pops ln

theorem fromlist_tolist_list : ∀ (ps : List Population) (ln : Bool),
    ps.map (fun sp => Population.fromlist sp.tolist ln)
      = map_members_list (fun m => Molecule.fromdict m.json ln) ps
  | [], _ => by rw [List.map_nil, map_members_list]
  | sp :: rest, ln => by
      rw [List.map_cons, map_members_list, fromlist_tolist_eq sp ln,
          fromlist_tolist_list rest ln]

end

mutual

theorem all_members_map_members : ∀ (p : Population) (f : Molecule → Molecule),
    (Population.map_members f p).all_members = p.all_members.map f
  | .mk ms pops gt, f => by
      rw [Population.map_members, all_members_mk, all_members_mk,
          List.map_append]
      congr 1
      exact all_members_map_members_list pops f

theorem all_members_map_members_list :
    ∀ (ps : List Population) (f : Molecule → Molecule),
    all_members_list (map_members_list f ps) = (all_members_list ps).map f
  | [], f => by simp only [map_members_list, all_members_list, List.map_nil]
  | sp :: rest, f => by
      simp only [map_members_list, all_members_list, List.map_append]
      rw [all_members_map_members sp f, all_members_map_members_list rest f]

end

/-- C9: serializing a population with `tolist` and reading it back with
`fromlist` reproduces the member/subpopulation tree exactly — the result
is the original tree with every member replaced by
`fromdict(json(member), load_names)` at its original position (and the
fresh node's empty-`GATools` placeholder); with `load_names=True` the
members come back identical, and with `load_names=False` the persisted
name hints are discarded (every member comes back with its name reset). -/
theorem fromlist_tolist_round_trip (p : Population) (ln : Bool) :
    Population.fromlist p.tolist ln
      = Population.map_members (fun m => Molecule.fromdict m.json ln) p ∧
    (Population.fromlist p.tolist true).all_members = p.all_members ∧
    (Population.fromlist p.tolist false).all_members
      = p.all_members.map (fun m => { m with name := "" }) := by
  refine ⟨fromlist_tolist_eq p ln, ?_, ?_⟩
  · rw [fromlist_tolist_eq p true, all_members_map_members]
    simp [fromdict_json_true]
  · rw [fromlist_tolist_eq p false, all_members_map_members]
    simp [fromdict_json_false]

theorem fromlist_go_ga_tools (ln : Bool) (items : List PopItem) :
    ∀ (pop : Population),
      (fromlist_go items ln pop).ga_tools = pop.ga_tools := by
  induction items with
  | nil =>
      intro pop
      simp only [fromlist_go]
  | cons x rest ih =>
      intro pop
      cases x with
      | mdict d =>
          simp only [fromlist_go]
          rw [ih]
          rfl
      | plist l =>
          simp only [fromlist_go]
          rw [ih]
          rfl

/-- C10: `Population.load` assigns its `ga_tools` argument to the loaded
population unconditionally, so with the default `ga_tools=None` the loaded
population's `ga_tools` is `None` — unlike `__init__` (and hence
`fromlist`), which installs the empty-`GATools` placeholder — so the
"always a GATools instance" invariant survives `load` only when the
caller passes one. -/
theorem load_ga_tools_assignment (pop_list : List PopItem)
    (gt : Option GATools) (ln : Bool) :
    (Population.load pop_list gt ln).ga_tools = gt ∧
    (Population.load pop_list none ln).ga_tools = none ∧
    (Population.fromlist pop_list ln).ga_tools = some GATools.init_empty ∧
    Population.empty.ga_tools = some GATools.init_empty := by
  refine ⟨rfl, rfl, ?_, rfl⟩
  rw [Population.fromlist, fromlist_go_ga_tools]
  rfl

end Stk
